/-
Verification of the rinku migration-tracking tool.

Shallow embedding of the core subsystems (step-prompt parser, progress
tracker, requirements store) translated from the Go source:
  internal/progress (Migration state machine and storage),
  internal/requirements/storage.go (SafeReqPath-validated document store),
  the multistep prompt parser, the verify package pattern matcher, and
  the ReqSetCmd CLI content handling.
Strings are modelled as Lean strings (sequences of runes); the Go code
operates on UTF-8 bytes, and every place where the two could diverge is
noted at the definition it concerns.  Timestamps (time.Time) are modelled
as Nat instants supplied explicitly to each operation that calls
time.Now().  The filesystem is modelled as an explicit store of typed
documents keyed by full disk path, with atomic writes as pure updates.
-/
import Mathlib

namespace Rinku

/-! ## Go string primitives (package strings / unicode) -/

/-- unicode.IsSpace: the White_Space property set used by strings.TrimSpace. -/
def goIsSpace (c : Char) : Bool :=
  c.toNat == 9 || c.toNat == 10 || c.toNat == 11 || c.toNat == 12 ||
  c.toNat == 13 || c.toNat == 32 || c.toNat == 0x85 || c.toNat == 0xA0 ||
  c.toNat == 0x1680 || (0x2000 ≤ c.toNat && c.toNat ≤ 0x200A) ||
  c.toNat == 0x2028 || c.toNat == 0x2029 || c.toNat == 0x202F ||
  c.toNat == 0x205F || c.toNat == 0x3000

/-- strings.TrimSpace: drop leading and trailing White_Space runes. -/
def goTrimSpace (s : String) : String :=
  String.mk (((s.data.dropWhile goIsSpace).reverse.dropWhile goIsSpace).reverse)

def listHasPre : List Char → List Char → Bool
  | [], _ => true
  | _ :: _, [] => false
  | a :: as, b :: bs => a == b && listHasPre as bs

/-- strings.HasPrefix(s, pre). -/
def goHasPre (s pre : String) : Bool :=
  listHasPre pre.data s.data

/-- strings.HasSuffix(s, suf). -/
def goHasSuf (s suf : String) : Bool :=
  listHasPre suf.data.reverse s.data.reverse

/-- strings.TrimPrefix(s, pre): s without the leading pre, if present. -/
def goTrimPre (s pre : String) : String :=
  if goHasPre s pre then String.mk (s.data.drop pre.data.length) else s

/-- strings.TrimSuffix(s, suf): s without the trailing suf, if present. -/
def goTrimSuf (s suf : String) : String :=
  if goHasSuf s suf then String.mk (s.data.take (s.data.length - suf.data.length)) else s

/-- ASCII case mapping of unicode.ToLower; the header patterns compared
against ("step ", reserved section names) are all ASCII, and the
comparisons proved below involve only ASCII inputs. -/
def goToLowerChar (c : Char) : Char :=
  if 65 ≤ c.toNat && c.toNat ≤ 90 then Char.ofNat (c.toNat + 32) else c

/-- strings.ToLower (ASCII fragment, see goToLowerChar). -/
def goToLower (s : String) : String :=
  String.mk (s.data.map goToLowerChar)

/-- strings.EqualFold (ASCII fragment, see goToLowerChar). -/
def goEqualFold (a b : String) : Bool :=
  goToLower a == goToLower b

/-- Byte-slice s[n:] of the Go code; at its one call site the first n
runes are guaranteed ASCII by a HasPrefix check against an ASCII literal,
so byte and rune offsets coincide. -/
def goDropChars (s : String) (n : Nat) : String :=
  String.mk (s.data.drop n)

/-- strings.Split(s, "/"): split on the path delimiter, keeping empty parts. -/
def goSplitSlash (s : String) : List String :=
  splitAux s.data []
where
  splitAux : List Char → List Char → List String
    | [], acc => [String.mk acc.reverse]
    | c :: rest, acc =>
      if c == '/' then String.mk acc.reverse :: splitAux rest []
      else splitAux rest (c :: acc)

def joinWithSlash : List String → String
  | [] => ""
  | [s] => s
  | s :: rest => s ++ "/" ++ joinWithSlash rest

/-! ## Go path primitives (package path/filepath, Unix separator) -/

/-- Element processing of filepath.Clean: "." and "" are dropped, ".."
pops a non-".." top of the output stack, an unmatched ".." is dropped
when rooted and kept when relative.  The stack is kept reversed (head is
the most recent element). -/
def cleanProcess (rooted : Bool) (segs : List String) : List String :=
  (segs.foldl (fun out seg =>
    if seg = "" || seg = "." then out
    else if seg = ".." then
      match out with
      | [] => if rooted then [] else [".."]
      | top :: rest => if top = ".." then ".." :: out else rest
    else seg :: out) []).reverse

/-- filepath.Clean (Unix). -/
def goClean (path : String) : String :=
  if path = "" then "."
  else
    let rooted := goHasPre path "/"
    let out := cleanProcess rooted (goSplitSlash path)
    if out = [] then (if rooted then "/" else ".")
    else (if rooted then "/" else "") ++ joinWithSlash out

/-- filepath.Join: join from the first non-empty element with the
separator, then Clean; all-empty input yields "". -/
def goJoinList : List String → String
  | [] => ""
  | e :: rest => if e = "" then goJoinList rest else goClean (joinWithSlash (e :: rest))

def goJoin2 (a b : String) : String := goJoinList [a, b]

/-! ## Lexicographic string order (sort.Strings) -/

/-- Go compares strings byte-wise; on the ASCII paths at issue this
coincides with the rune-wise comparison used here. -/
def charListLe : List Char → List Char → Bool
  | [], _ => true
  | _ :: _, [] => false
  | a :: as, b :: bs =>
    if a.toNat < b.toNat then true
    else if b.toNat < a.toNat then false
    else charListLe as bs

def strLe (a b : String) : Bool := charListLe a.data b.data

def insertSorted (s : String) : List String → List String
  | [] => [s]
  | x :: xs => if strLe s x then s :: x :: xs else x :: insertSorted s xs

/-- sort.Strings: sort ascending (insertion sort; Go's sort is in-place
and unstable, but the result on distinct keys is the same ordered list). -/
def sortStrings : List String → List String
  | [] => []
  | x :: xs => insertSorted x (sortStrings xs)

/-! ## Association lists standing for Go maps keyed by string -/

def mapLookup {α : Type} (k : String) : List (String × α) → Option α
  | [] => none
  | (k', v) :: rest => if k' = k then some v else mapLookup k rest

/-- Go map assignment m[k] = v: replace the binding if present, else append. -/
def mapInsert {α : Type} (k : String) (v : α) : List (String × α) → List (String × α)
  | [] => [(k, v)]
  | (k', v') :: rest => if k' = k then (k, v) :: rest else (k', v') :: mapInsert k v rest

/-- os.Remove of the file stored at key k. -/
def mapRemove {α : Type} (k : String) (l : List (String × α)) : List (String × α) :=
  l.filter (fun kv => kv.1 ≠ k)

/-! ## Progress state machine (internal/progress, migration.go)

StepStatus is a Go string type; its values are compared as strings, so it
is modelled as String with the four named constants. -/

def StepPending : String := "pending"
def StepInProgress : String := "in_progress"
def StepCompleted : String := "completed"
def StepSkipped : String := "skipped"

structure StepRecord where
  id : String
  status : String
  startedAt : Option Nat
  completedAt : Option Nat
  notes : String
  deriving DecidableEq, Repr

structure Migration where
  version : Nat
  startedAt : Nat
  projectPath : String
  currentStep : String
  steps : List (String × StepRecord)
  stepOrder : List String
  deriving DecidableEq, Repr

def currentVersion : Nat := 1

/-- progress.New: all steps pending, current step = first of the order. -/
def Migration.New (now : Nat) (projectDir : String) (stepOrder : List String) : Migration :=
  let m : Migration :=
    { version := currentVersion, startedAt := now, projectPath := projectDir,
      currentStep := "", steps := [], stepOrder := stepOrder }
  let m := { m with steps := stepOrder.foldl (fun acc id =>
    mapInsert id { id := id, status := StepPending, startedAt := none,
                   completedAt := none, notes := "" } acc) [] }
  if stepOrder.length > 0 then { m with currentStep := stepOrder.headD "" } else m

/-- Migration.StartStep: mark in_progress, stamp started_at, set current step. -/
def Migration.StartStep (m : Migration) (id : String) (now : Nat) : Except String Migration :=
  match mapLookup id m.steps with
  | none => .error ("step '" ++ id ++ "' not found")
  | some step =>
    .ok { m with
      steps := mapInsert id { step with status := StepInProgress, startedAt := some now } m.steps,
      currentStep := id }

/-- Migration.CompleteStep: mark completed, stamp completed_at, set notes
only when the supplied note is non-empty. -/
def Migration.CompleteStep (m : Migration) (id : String) (notes : String) (now : Nat) : Except String Migration :=
  match mapLookup id m.steps with
  | none => .error ("step '" ++ id ++ "' not found")
  | some step =>
    .ok { m with
      steps := mapInsert id
        { step with
          status := StepCompleted,
          completedAt := some now,
          notes := if notes ≠ "" then notes else step.notes } m.steps }

def Migration.GetCurrentStep (m : Migration) : String := m.currentStep

/-- Migration.Progress: count completed-or-skipped records against the total. -/
def Migration.Progress (m : Migration) : Nat × Nat :=
  (m.steps.countP (fun kv => kv.2.status == StepCompleted || kv.2.status == StepSkipped),
   m.steps.length)

/-- Migration.IsComplete. -/
def Migration.IsComplete (m : Migration) : Bool :=
  m.Progress.1 == m.Progress.2

/-! ## JSON documents (encoding/json as used by progress storage)

The progress file holds the JSON rendering of a Migration.  The document
is modelled as a JSON value tree; timestamps marshal to their RFC3339
text, which is in bijection with the instant, so a time.Time field is
rendered here as the numeric instant itself.  Go writes map keys sorted;
object entry order is immaterial to unmarshalling (fields are fetched by
name), so encoding keeps store order. -/

inductive Json where
  | null : Json
  | bool : Bool → Json
  | num : Nat → Json
  | str : String → Json
  | arr : List Json → Json
  | obj : List (String × Json) → Json

def jLookup (k : String) : List (String × Json) → Option Json
  | [] => none
  | (k', v) :: rest => if k' = k then some v else jLookup k rest

/-- Unmarshal a string field: absent or null leaves the zero value "",
a non-string value is a type error. -/
def fieldStr (l : List (String × Json)) (k : String) : Option String :=
  match jLookup k l with
  | none => some ""
  | some (.str s) => some s
  | some .null => some ""
  | some _ => none

/-- Unmarshal an integer field: absent or null leaves the zero value 0. -/
def fieldNat (l : List (String × Json)) (k : String) : Option Nat :=
  match jLookup k l with
  | none => some 0
  | some (.num n) => some n
  | some .null => some 0
  | some _ => none

/-- Unmarshal an optional-timestamp (pointer) field: absent or null is nil. -/
def fieldOptNat (l : List (String × Json)) (k : String) : Option (Option Nat) :=
  match jLookup k l with
  | none => some none
  | some (.num n) => some (some n)
  | some .null => some none
  | some _ => none

/-- StepRecord marshalling: started_at, completed_at and notes carry
omitempty, so a nil pointer or empty notes string is omitted. -/
def marshalStepRecord (r : StepRecord) : Json :=
  .obj ([("id", .str r.id), ("status", .str r.status)]
    ++ (match r.startedAt with | some t => [("started_at", .num t)] | none => [])
    ++ (match r.completedAt with | some t => [("completed_at", .num t)] | none => [])
    ++ (if r.notes = "" then [] else [("notes", .str r.notes)]))

def unmarshalStepRecord (j : Json) : Option StepRecord :=
  match j with
  | .obj l => do
    let id ← fieldStr l "id"
    let status ← fieldStr l "status"
    let sa ← fieldOptNat l "started_at"
    let ca ← fieldOptNat l "completed_at"
    let notes ← fieldStr l "notes"
    pure { id := id, status := status, startedAt := sa, completedAt := ca, notes := notes }
  | _ => none

/-- Decode the entries of the steps object, failing on the first bad record. -/
def decodeSteps : List (String × Json) → Option (List (String × StepRecord))
  | [] => some []
  | (k, v) :: rest =>
    match unmarshalStepRecord v with
    | none => none
    | some r =>
      match decodeSteps rest with
      | none => none
      | some t => some ((k, r) :: t)

def fieldSteps (l : List (String × Json)) (k : String) : Option (List (String × StepRecord)) :=
  match jLookup k l with
  | none => some []
  | some .null => some []
  | some (.obj entries) => decodeSteps entries
  | some _ => none

def decodeStrList : List Json → Option (List String)
  | [] => some []
  | .str s :: rest =>
    match decodeStrList rest with
    | none => none
    | some t => some (s :: t)
  | _ :: _ => none

def fieldStrList (l : List (String × Json)) (k : String) : Option (List String) :=
  match jLookup k l with
  | none => some []
  | some .null => some []
  | some (.arr xs) => decodeStrList xs
  | some _ => none

def marshalMigration (m : Migration) : Json :=
  .obj [("version", .num m.version),
        ("started_at", .num m.startedAt),
        ("project_path", .str m.projectPath),
        ("current_step", .str m.currentStep),
        ("steps", .obj (m.steps.map (fun kv => (kv.1, marshalStepRecord kv.2)))),
        ("step_order", .arr (m.stepOrder.map Json.str))]

def unmarshalMigration (j : Json) : Option Migration :=
  match j with
  | .obj l => do
    let v ← fieldNat l "version"
    let sa ← fieldNat l "started_at"
    let pp ← fieldStr l "project_path"
    let cs ← fieldStr l "current_step"
    let steps ← fieldSteps l "steps"
    let so ← fieldStrList l "step_order"
    pure { version := v, startedAt := sa, projectPath := pp, currentStep := cs,
           steps := steps, stepOrder := so }
  | _ => none

/-! ## Requirement documents (internal/requirements/types.go) -/

structure Requirement where
  path : String
  content : String
  step : String
  createdAt : Nat
  updatedAt : Nat
  done : Bool
  doneAt : Option Nat
  deriving DecidableEq, Repr

/-! ## Filesystem model and progress storage (internal/progress/storage.go) -/

/-- The persistent store: progress.json documents and requirement
documents, each keyed by full disk path.  atomic.WriteFile either lands
the whole document or leaves the prior one, which a pure map update
models exactly; MkdirAll is a no-op here (directory existence is
modelled where it is observed, in List). -/
structure FS where
  progFiles : List (String × Json)
  reqFiles : List (String × Requirement)

def ProgressDirName : String := ".rinku"
def ProgressFileName : String := "progress.json"

/-- progress.ProgressPath. -/
def ProgressPath (projectDir : String) : String :=
  goJoinList [projectDir, ProgressDirName, ProgressFileName]

/-- progress.Load: no file is "no state" (.ok none), a malformed file is
an error; both are distinct from a loaded state. -/
def progLoad (fs : FS) (projectDir : String) : Except String (Option Migration) :=
  match mapLookup (ProgressPath projectDir) fs.progFiles with
  | none => .ok none
  | some j =>
    match unmarshalMigration j with
    | none => .error "parsing progress"
    | some m => .ok (some m)

/-- Migration.Save: marshal and write atomically at ProgressPath. -/
def Migration.Save (m : Migration) (fs : FS) (projectDir : String) : FS :=
  { fs with progFiles := mapInsert (ProgressPath projectDir) (marshalMigration m) fs.progFiles }

def emptyFS : FS := { progFiles := [], reqFiles := [] }

/-! ## Requirements store (internal/requirements/storage.go) -/

def RequirementsDir : String := "requirements"

def reqBaseDir (projectDir : String) : String :=
  goJoinList [projectDir, ProgressDirName, RequirementsDir]

/-- newSafeReqPath: resolve the requested document path under the
requirements base directory and fail closed unless the resolved path
still lies strictly inside it.  The check runs on the raw input path of
the present call; nothing is cached. -/
def newSafeReqPath (projectDir reqPath : String) : Except String String :=
  let baseDir := reqBaseDir projectDir
  let fullPath := goJoin2 baseDir (goClean reqPath ++ ".json")
  if goHasPre fullPath (baseDir ++ "/") then .ok fullPath
  else .error ("invalid path: " ++ reqPath)

/-- requirements.Get: validate the path, then read; a missing file is
.ok none, not an error.  A document previously written by save is read
back intact (the JSON encode/decode round trip is established for the
progress document; requirement files carry their typed content here). -/
def reqGet (fs : FS) (projectDir reqPath : String) : Except String (Option Requirement) :=
  match newSafeReqPath projectDir reqPath with
  | .error e => .error e
  | .ok safePath => .ok (mapLookup safePath fs.reqFiles)

/-- getCurrentStep: read current_step from progress.json, empty string on
any error or missing state. -/
def getCurrentStep (fs : FS) (projectDir : String) : String :=
  match progLoad fs projectDir with
  | .ok (some m) => m.GetCurrentStep
  | _ => ""

/-- requirements.save: validate the document path, then write atomically. -/
def reqSave (fs : FS) (projectDir : String) (req : Requirement) : Except String FS :=
  match newSafeReqPath projectDir req.path with
  | .error e => .error e
  | .ok safePath => .ok { fs with reqFiles := mapInsert safePath req fs.reqFiles }

/-- The document requirements.Set builds before its final save call:
load any existing document (errors ignored, nil on failure), stamp the
progress store's current step and the present instant, inherit
created_at from an existing document. -/
def reqSetDoc (fs : FS) (now : Nat) (projectDir reqPath content : String) : Requirement :=
  let existing : Option Requirement :=
    match reqGet fs projectDir reqPath with
    | .ok e => e
    | .error _ => none
  let req : Requirement :=
    { path := reqPath, content := content, step := getCurrentStep fs projectDir,
      createdAt := now, updatedAt := now, done := false, doneAt := none }
  match existing with
  | some e => { req with createdAt := e.createdAt }
  | none => req

/-- requirements.Set: build the document and save it. -/
def reqSet (fs : FS) (now : Nat) (projectDir reqPath content : String) : Except String FS :=
  reqSave fs projectDir (reqSetDoc fs now projectDir reqPath content)

/-- requirements.Done: fails with not-found when no document exists at
the path; otherwise sets done, stamps done_at, refreshes updated_at. -/
def reqDone (fs : FS) (now : Nat) (projectDir reqPath : String) : Except String FS :=
  match reqGet fs projectDir reqPath with
  | .error e => .error e
  | .ok none =>
    .error ("requirement '" ++ reqPath ++
      "' not found\nHint: Requirements are stored in .rinku/ - are you in the correct project directory?")
  | .ok (some req) =>
    reqSave fs projectDir
      { req with
        done := true,
        doneAt := some now,
        updatedAt := now }

/-- requirements.Delete: validate, then remove; an absent file is not an error. -/
def reqDelete (fs : FS) (projectDir reqPath : String) : Except String FS :=
  match newSafeReqPath projectDir reqPath with
  | .error e => .error e
  | .ok safePath => .ok { fs with reqFiles := mapRemove safePath fs.reqFiles }

/-- requirements.List: nil when the base directory does not exist
(modelled as: no stored file lies beneath it); otherwise walk the files
under the base directory, keep the .json ones, relativize (filepath.Rel
of a walked path is exactly the base-directory path stripped), drop the
extension, keep paths with the literal filter string as a text first part
when a filter is supplied, and sort. -/
def reqList (fs : FS) (projectDir filter : String) : List String :=
  let baseDir := reqBaseDir projectDir
  if fs.reqFiles.all (fun kv => !goHasPre kv.1 (baseDir ++ "/")) then []
  else
    sortStrings (fs.reqFiles.filterMap (fun kv =>
      if !goHasPre kv.1 (baseDir ++ "/") then none
      else if !goHasSuf kv.1 ".json" then none
      else
        let relPath := goTrimPre kv.1 (baseDir ++ "/")
        let reqPath := goTrimSuf relPath ".json"
        if filter ≠ "" && !goHasPre reqPath filter then none
        else some reqPath))

/-! ## Wildcard pattern matching (internal/verify) -/

/-- verify.matchPattern: split pattern and path on the delimiter; the
pattern must not have more segments than the path, a * segment matches
any path segment, any other segment must match exactly at its position. -/
def matchPattern (pattern path : String) : Bool :=
  let patternParts := goSplitSlash pattern
  let pathParts := goSplitSlash path
  if patternParts.length > pathParts.length then false
  else segsMatch patternParts pathParts
where
  segsMatch : List String → List String → Bool
    | [], _ => true
    | _ :: _, [] => false
    | pp :: ps, qp :: qs => (pp == "*" || pp == qp) && segsMatch ps qs

/-- verify.filterByPattern. -/
def filterByPattern (reqs : List String) (pattern : String) : List String :=
  reqs.filter (fun req => matchPattern pattern req)

/-- verify.GetRequirementsByPattern: wildcard filtering applied to the
full (unfiltered) List output. -/
def getRequirementsByPattern (fs : FS) (projectDir pattern : String) : List String :=
  filterByPattern (reqList fs projectDir "") pattern

/-! ## Prompt header recognition (internal/multistep parser) -/

def isIntroductionHeader (line : String) : Bool :=
  let l := goTrimSpace line
  if !goHasPre l "#" then false
  else goEqualFold (goTrimSpace (goTrimPre l "#")) "introduction"

def isBeforeHeader (line : String) : Bool :=
  let l := goTrimSpace line
  if !goHasPre l "#" then false
  else goEqualFold (goTrimSpace (goTrimPre l "#")) "before"

def isAfterHeader (line : String) : Bool :=
  let l := goTrimSpace line
  if !goHasPre l "#" then false
  else goEqualFold (goTrimSpace (goTrimPre l "#")) "after"

/-- parseStepHeader: after trimming, the line must start with the marker;
one marker is stripped and the remainder trimmed; the lowercased
remainder must start with "step " (with the separating space, so "steps"
or a bare "step" never match); the identifier is everything after those
five characters, trimmed, and must be non-empty. -/
def parseStepHeader (line : String) : Option String :=
  let l := goTrimSpace line
  if !goHasPre l "#" then none
  else
    let rest := goTrimSpace (goTrimPre l "#")
    let lower := goToLower rest
    if !goHasPre lower "step " then none
    else
      let afterStep := goTrimSpace (goDropChars rest 5)
      if afterStep = "" then none
      else some afterStep

/-- The decision Parse takes per line: the reserved-section checks run
first, then parseStepHeader; its identifier is the produced step id. -/
def lineStep (line : String) : Option String :=
  if isIntroductionHeader line || isBeforeHeader line || isAfterHeader line then none
  else parseStepHeader line

/-! ## CLI content handling (cmd/rinku/main.go, ReqSetCmd.Run) -/

/-- ReqSetCmd.Run: an omitted content argument is the empty string; only
then is stdin read and trimmed; content that is still empty is rejected
before requirements.Set runs. -/
def reqSetCmdRun (fs : FS) (now : Nat) (cwd path arg stdin : String) : Except String FS :=
  let content := arg
  let content := if content = "" then goTrimSpace stdin else content
  if content = "" then .error "content is required (provide as argument or via stdin)"
  else reqSet fs now cwd path content

/-! ## Map lemmas -/

theorem mapLookup_mapInsert_self {α : Type} (k : String) (v : α) (l : List (String × α)) :
    mapLookup k (mapInsert k v l) = some v := by
  induction l with
  | nil => simp [mapInsert, mapLookup]
  | cons kv rest ih =>
    obtain ⟨k', v'⟩ := kv
    by_cases h : k' = k <;> simp [mapInsert, mapLookup, h, ih]

theorem mapLookup_mapInsert_ne {α : Type} {q k : String} (h : q ≠ k) (v : α)
    (l : List (String × α)) : mapLookup q (mapInsert k v l) = mapLookup q l := by
  induction l with
  | nil => simp [mapInsert, mapLookup, Ne.symm h]
  | cons kv rest ih =>
    obtain ⟨k', v'⟩ := kv
    by_cases hk : k' = k
    · subst hk
      simp [mapInsert, mapLookup, Ne.symm h]
    · by_cases hq : k' = q <;> simp [mapInsert, mapLookup, hk, hq, ih, h]

theorem countP_or_disjoint {α : Type} (p q : α → Bool) (l : List α)
    (h : ∀ a ∈ l, ¬(p a = true ∧ q a = true)) :
    l.countP (fun a => p a || q a) = l.countP p + l.countP q := by
  induction l with
  | nil => simp
  | cons a t ih =>
    have ha := h a (by simp)
    have ht : ∀ b ∈ t, ¬(p b = true ∧ q b = true) := fun b hb => h b (by simp [hb])
    cases hp : p a <;> cases hq : q a
    · simp [List.countP_cons, hp, hq, ih ht]
    · simp only [List.countP_cons, hp, hq, ih ht]
      simp
      omega
    · simp only [List.countP_cons, hp, hq, ih ht]
      simp
      omega
    · exact absurd ⟨hp, hq⟩ ha

/-! ## Claim C1 -/

/-- A requirement path escapes the store root when its resolved on-disk
form does not lie strictly inside the requirements base directory. -/
def escapesStoreRoot (projectDir reqPath : String) : Bool :=
  !goHasPre (goJoin2 (reqBaseDir projectDir) (goClean reqPath ++ ".json"))
    (reqBaseDir projectDir ++ "/")

theorem newSafeReqPath_escape {projectDir reqPath : String}
    (h : escapesStoreRoot projectDir reqPath = true) :
    newSafeReqPath projectDir reqPath = .error ("invalid path: " ++ reqPath) := by
  simp only [escapesStoreRoot, Bool.not_eq_true', goJoin2] at h
  simp [newSafeReqPath, goJoin2, h]

/-- The document Set builds always carries the raw requested path. -/
theorem reqSetDoc_path (fs : FS) (now : Nat) (projectDir reqPath content : String) :
    (reqSetDoc fs now projectDir reqPath content).path = reqPath := by
  simp only [reqSetDoc]
  split <;> rfl

theorem reqSetDoc_of_none {fs : FS} {projectDir reqPath : String}
    (h : reqGet fs projectDir reqPath = .ok none) (now : Nat) (content : String) :
    reqSetDoc fs now projectDir reqPath content =
      { path := reqPath, content := content, step := getCurrentStep fs projectDir,
        createdAt := now, updatedAt := now, done := false, doneAt := none } := by
  simp [reqSetDoc, h]

theorem reqSetDoc_of_some {fs : FS} {projectDir reqPath : String} {d : Requirement}
    (h : reqGet fs projectDir reqPath = .ok (some d)) (now : Nat) (content : String) :
    reqSetDoc fs now projectDir reqPath content =
      { path := reqPath, content := content, step := getCurrentStep fs projectDir,
        createdAt := d.createdAt, updatedAt := now, done := false, doneAt := none } := by
  simp [reqSetDoc, h]

theorem reqSave_ok {projectDir safePath : String} {req : Requirement}
    (h : newSafeReqPath projectDir req.path = .ok safePath) (fs : FS) :
    reqSave fs projectDir req = .ok { fs with reqFiles := mapInsert safePath req fs.reqFiles } := by
  simp [reqSave, h]

theorem reqGet_ok {projectDir reqPath safePath : String}
    (h : newSafeReqPath projectDir reqPath = .ok safePath) (fs : FS) :
    reqGet fs projectDir reqPath = .ok (mapLookup safePath fs.reqFiles) := by
  simp [reqGet, h]

/-- Claim C1: for every store state, project root and requirement path
whose resolved form escapes the store's root directory, each of set, get,
done and delete fails with the path error and performs no filesystem
write (no successor state is produced); the validation is a pure function
of the raw input path, re-run inside every operation. -/
theorem c1_path_safety (fs : FS) (projectDir reqPath : String)
    (h : escapesStoreRoot projectDir reqPath = true) :
    reqGet fs projectDir reqPath = .error ("invalid path: " ++ reqPath) ∧
    (∀ now content, reqSet fs now projectDir reqPath content = .error ("invalid path: " ++ reqPath)) ∧
    (∀ now, reqDone fs now projectDir reqPath = .error ("invalid path: " ++ reqPath)) ∧
    reqDelete fs projectDir reqPath = .error ("invalid path: " ++ reqPath) := by
  have hs := newSafeReqPath_escape h
  refine ⟨?_, ?_, ?_, ?_⟩
  · simp [reqGet, hs]
  · intro now content
    simp [reqSet, reqSave, reqSetDoc_path, hs]
  · intro now
    simp [reqDone, reqGet, hs]
  · simp [reqDelete, hs]

/-- Claim C1 witness: the traversal path from the spec, against a fresh
store under root "/proj". -/
theorem c1_path_safety_witness :
    escapesStoreRoot "/proj" "../../etc/passwd" = true ∧
    reqSet emptyFS 7 "/proj" "../../etc/passwd" "x" = .error "invalid path: ../../etc/passwd" ∧
    reqGet emptyFS "/proj" "../../etc/passwd" = .error "invalid path: ../../etc/passwd" ∧
    reqDone emptyFS 7 "/proj" "../../etc/passwd" = .error "invalid path: ../../etc/passwd" ∧
    reqDelete emptyFS "/proj" "../../etc/passwd" = .error "invalid path: ../../etc/passwd" :=
  ⟨rfl,
   (c1_path_safety emptyFS "/proj" "../../etc/passwd" rfl).2.1 7 "x",
   (c1_path_safety emptyFS "/proj" "../../etc/passwd" rfl).1,
   (c1_path_safety emptyFS "/proj" "../../etc/passwd" rfl).2.2.1 7,
   (c1_path_safety emptyFS "/proj" "../../etc/passwd" rfl).2.2.2⟩

/-! ## Claim C2 -/

def exceptDFS (r : Except String FS) : FS :=
  match r with
  | .ok fs => fs
  | .error _ => emptyFS

/-- The store state after the CLI accepts a whitespace-only content argument. -/
def wsDemoFS : FS := exceptDFS (reqSetCmdRun emptyFS 0 "/p" "api/cli" "   " "")

/-- Claim C2 counterexample: a whitespace-only content argument is empty
after trimming, yet the CLI set succeeds and creates the document with
that content verbatim; the store's Set even accepts fully empty content. -/
theorem c2_counterexample :
    goTrimSpace "   " = "" ∧
    reqSetCmdRun emptyFS 0 "/p" "api/cli" "   " "" = .ok wsDemoFS ∧
    reqGet wsDemoFS "/p" "api/cli" =
      .ok (some { path := "api/cli", content := "   ", step := "",
                  createdAt := 0, updatedAt := 0, done := false, doneAt := none }) ∧
    reqSet emptyFS 0 "/p" "api/cli" "" = .ok (exceptDFS (reqSet emptyFS 0 "/p" "api/cli" "")) :=
  ⟨rfl, rfl, rfl, rfl⟩

/-- Claim C2 (amended): the store's Set performs no content validation at
all (it succeeds on any content whenever the path validates); the CLI
wrapper rejects only content that is exactly empty, and trims only
stdin-sourced content — a non-empty argument (whitespace-only included)
is passed to Set verbatim, while stdin input is trimmed first, so
whitespace-only stdin is rejected before any write. -/
theorem c2_content_validation :
    (∀ fs now cwd path arg stdin, arg ≠ "" →
      reqSetCmdRun fs now cwd path arg stdin = reqSet fs now cwd path arg) ∧
    (∀ fs now cwd path stdin, goTrimSpace stdin = "" →
      reqSetCmdRun fs now cwd path "" stdin =
        .error "content is required (provide as argument or via stdin)") ∧
    (∀ fs now cwd path stdin, goTrimSpace stdin ≠ "" →
      reqSetCmdRun fs now cwd path "" stdin = reqSet fs now cwd path (goTrimSpace stdin)) ∧
    (∀ fs now projectDir reqPath content safePath,
      newSafeReqPath projectDir reqPath = .ok safePath →
      ∃ fs2, reqSet fs now projectDir reqPath content = .ok fs2) := by
  refine ⟨?_, ?_, ?_, ?_⟩
  · intro fs now cwd path arg stdin h
    simp [reqSetCmdRun, h]
  · intro fs now cwd path stdin h
    simp [reqSetCmdRun, h]
  · intro fs now cwd path stdin h
    simp [reqSetCmdRun, h]
  · intro fs now projectDir reqPath content safePath h
    have hp : newSafeReqPath projectDir (reqSetDoc fs now projectDir reqPath content).path = .ok safePath := by
      rw [reqSetDoc_path]
      exact h
    exact ⟨_, reqSave_ok hp fs⟩

/-- Claim C2 amended-witness: each clause at concrete inputs. -/
theorem c2_content_validation_witness :
    reqSetCmdRun emptyFS 0 "/p" "api/cli" "   " "" = reqSet emptyFS 0 "/p" "api/cli" "   " ∧
    reqSetCmdRun emptyFS 0 "/p" "api/cli" "" "  " =
      .error "content is required (provide as argument or via stdin)" ∧
    reqSetCmdRun emptyFS 0 "/p" "api/cli" "" " hello " =
      reqSet emptyFS 0 "/p" "api/cli" (goTrimSpace " hello ") ∧
    ∃ fs2, reqSet emptyFS 0 "/p" "api/cli" "" = .ok fs2 :=
  ⟨c2_content_validation.1 emptyFS 0 "/p" "api/cli" "   " "" (by decide),
   c2_content_validation.2.1 emptyFS 0 "/p" "api/cli" "  " rfl,
   c2_content_validation.2.2.1 emptyFS 0 "/p" "api/cli" " hello " (by decide),
   c2_content_validation.2.2.2 emptyFS 0 "/p" "api/cli" ""
     "/p/.rinku/requirements/api/cli.json" rfl⟩

/-! ## Claim C3 -/

/-- A store holding exactly the requirement paths api/cli, worker/cli and
api/web/routes under root "/p", built through Set. -/
def listDemoFS : FS :=
  exceptDFS (do
    let f1 ← reqSet emptyFS 1 "/p" "api/cli" "c1"
    let f2 ← reqSet f1 2 "/p" "worker/cli" "c2"
    reqSet f2 3 "/p" "api/web/routes" "c3")

/-- Claim C3 counterexample: over exactly those three paths, List with
the filter string "*/cli" returns the empty list, not the two cli paths —
List filters by literal text only, and no stored path starts with the
literal characters "*/cli". -/
theorem c3_counterexample :
    reqList listDemoFS "/p" "" = ["api/cli", "api/web/routes", "worker/cli"] ∧
    reqList listDemoFS "/p" "*/cli" = [] ∧
    reqList listDemoFS "/p" "*/cli" ≠ ["api/cli", "worker/cli"] :=
  ⟨rfl, rfl, by decide⟩

/-- The spec's wording of the wildcard predicate: split pattern and path
on the delimiter, require the pattern to be no longer than the path, and
require every non-wildcard pattern segment to equal the path segment at
its position. -/
def specSegMatch (pattern path : String) : Bool :=
  let patternParts := goSplitSlash pattern
  let pathParts := goSplitSlash path
  decide (patternParts.length ≤ pathParts.length) &&
    (patternParts.zip pathParts).all (fun s => s.1 == "*" || s.1 == s.2)

theorem segsMatch_eq_zip_all (ps qs : List String) (hle : ps.length ≤ qs.length) :
    matchPattern.segsMatch ps qs = (ps.zip qs).all (fun s => s.1 == "*" || s.1 == s.2) := by
  induction ps generalizing qs with
  | nil => simp [matchPattern.segsMatch]
  | cons p pt ih =>
    cases qs with
    | nil => simp at hle
    | cons q qt =>
      simp only [List.length_cons, Nat.add_le_add_iff_right] at hle
      simp [matchPattern.segsMatch, List.zip, ih qt hle, Bool.and_assoc]

/-- Claim C3 (amended): requirements.List matches by literal text only,
so List(root, "*/cli") over those paths is empty; wildcard filtering is
the verify package's matchPattern applied to the full List output
(GetRequirementsByPattern), which returns exactly api/cli and worker/cli,
sorted, and matchPattern agrees everywhere with the per-segment rule
stated by the spec. -/
theorem c3_wildcard_list :
    reqList listDemoFS "/p" "*/cli" = [] ∧
    getRequirementsByPattern listDemoFS "/p" "*/cli" = ["api/cli", "worker/cli"] ∧
    (∀ pattern path, matchPattern pattern path = specSegMatch pattern path) := by
  refine ⟨rfl, rfl, ?_⟩
  intro pattern path
  simp only [matchPattern, specSegMatch]
  by_cases h : (goSplitSlash pattern).length > (goSplitSlash path).length
  · simp [h, Nat.not_le_of_lt h]
  · have hle : (goSplitSlash pattern).length ≤ (goSplitSlash path).length :=
      Nat.le_of_not_lt h
    simp [h, hle, segsMatch_eq_zip_all _ _ hle]

/-! ## Claim C4 -/

/-- Claim C4 counterexample: a marker not followed by whitespace does
produce a step — the parser strips one marker and trims whatever follows,
so "#Step 1" yields the step id "1". -/
theorem c4_counterexample : lineStep "#Step 1" = some "1" := rfl

/-- Claim C4 (amended): a line is a step header exactly when, after
trimming, one marker character (whitespace after it optional) is followed
by the word step, a space, and an identifier that is non-empty after
trimming; "##Step 1", "# Steps 3", "# Step" and a whitespace-only
identifier produce no step, while "# step 1", "# Step Find Tests" and
"#Step 1" produce steps with ids taken verbatim and trimmed. -/
theorem c4_step_header :
    lineStep "##Step 1" = none ∧
    lineStep "# Steps 3" = none ∧
    lineStep "# Step" = none ∧
    lineStep "# Step   " = none ∧
    lineStep "# step 1" = some "1" ∧
    lineStep "# Step Find Tests" = some "Find Tests" ∧
    lineStep "#Step 1" = some "1" ∧
    lineStep "   # Step 2  " = some "2" :=
  ⟨rfl, rfl, rfl, rfl, rfl, rfl, rfl, rfl⟩

/-! ## Claim C5 -/

/-- The record StartStep writes for a found step. -/
def startedRec (r : StepRecord) (now : Nat) : StepRecord :=
  { r with status := StepInProgress, startedAt := some now }

/-- Claim C5: StartStep on an unknown id fails with not-found and
produces no new state (every record and current_step stay as they were);
on a known id it sets the record to in_progress with started_at
overwritten by the call time (whatever its prior value), leaves every
other record alone, and repoints current_step to the id — and
CompleteStep, the only other public transition, never changes
current_step. -/
theorem c5_start_step (m : Migration) (id : String) (now : Nat) :
    (mapLookup id m.steps = none →
      m.StartStep id now = .error ("step '" ++ id ++ "' not found")) ∧
    (∀ r, mapLookup id m.steps = some r →
      m.StartStep id now = .ok
        { m with
          steps := mapInsert id (startedRec r now) m.steps,
          currentStep := id }) ∧
    (∀ r k, mapLookup id m.steps = some r → k ≠ id →
      mapLookup k (mapInsert id (startedRec r now) m.steps) = mapLookup k m.steps) ∧
    (∀ notes now2 m2, m.CompleteStep id notes now2 = .ok m2 →
      m2.currentStep = m.currentStep) := by
  refine ⟨?_, ?_, ?_, ?_⟩
  · intro h
    simp [Migration.StartStep, h]
  · intro r h
    simp [Migration.StartStep, h, startedRec]
  · intro r k _ hk
    exact mapLookup_mapInsert_ne hk _ _
  · intro notes now2 m2 h
    cases hl : mapLookup id m.steps with
    | none => simp [Migration.CompleteStep, hl] at h
    | some step =>
      simp only [Migration.CompleteStep, hl, Except.ok.injEq] at h
      rw [← h]

def mDemo : Migration := Migration.New 0 "/x" ["1", "2"]

def exceptDMig (r : Except String Migration) : Migration :=
  match r with
  | .ok m => m
  | .error _ => Migration.New 0 "" []

/-- Claim C5 witness: unknown id "zz" fails, known id "1" moves to
in_progress and takes current_step, other records keep their lookup, and
a CompleteStep leaves current_step where it was. -/
theorem c5_start_step_witness :
    mDemo.StartStep "zz" 3 = .error "step 'zz' not found" ∧
    mDemo.StartStep "1" 3 = .ok
      { mDemo with
        steps := mapInsert "1"
          (startedRec { id := "1", status := StepPending, startedAt := none,
                        completedAt := none, notes := "" } 3) mDemo.steps,
        currentStep := "1" } ∧
    mapLookup "2" (mapInsert "1"
      (startedRec { id := "1", status := StepPending, startedAt := none,
                    completedAt := none, notes := "" } 3) mDemo.steps) =
      mapLookup "2" mDemo.steps ∧
    (exceptDMig (mDemo.CompleteStep "1" "n" 4)).currentStep = mDemo.currentStep :=
  ⟨(c5_start_step mDemo "zz" 3).1 rfl,
   (c5_start_step mDemo "1" 3).2.1 _ rfl,
   (c5_start_step mDemo "1" 3).2.2.1 _ "2" rfl (by decide),
   (c5_start_step mDemo "1" 3).2.2.2 "n" 4 _ rfl⟩

/-! ## Claim C6 -/

/-- The record CompleteStep writes for a found step: an empty supplied
note keeps the prior note, a non-empty one replaces it. -/
def completedRec (r : StepRecord) (notes : String) (now : Nat) : StepRecord :=
  { r with
    status := StepCompleted,
    completedAt := some now,
    notes := if notes = "" then r.notes else notes }

/-- Claim C6: CompleteStep on a known id succeeds with no condition on
current_step, writes the completed record (status completed, completed_at
stamped, prior note kept when the supplied note is empty, replaced when
non-empty), and leaves current_step and every other record unchanged. -/
theorem c6_complete_step (m : Migration) (id notes : String) (now : Nat) (r : StepRecord)
    (h : mapLookup id m.steps = some r) :
    m.CompleteStep id notes now = .ok
      { m with steps := mapInsert id (completedRec r notes now) m.steps } ∧
    mapLookup id (mapInsert id (completedRec r notes now) m.steps) =
      some (completedRec r notes now) ∧
    (completedRec r "" now).notes = r.notes ∧
    (notes ≠ "" → (completedRec r notes now).notes = notes) ∧
    (∀ k, k ≠ id →
      mapLookup k (mapInsert id (completedRec r notes now) m.steps) = mapLookup k m.steps) ∧
    (Migration.currentStep
      { m with steps := mapInsert id (completedRec r notes now) m.steps } = m.currentStep) := by
  refine ⟨?_, mapLookup_mapInsert_self _ _ _, ?_, ?_, ?_, rfl⟩
  · by_cases hn : notes = "" <;> simp [Migration.CompleteStep, h, completedRec, hn]
  · simp [completedRec]
  · intro hn
    simp [completedRec, hn]
  · intro k hk
    exact mapLookup_mapInsert_ne hk _ _

/-- A migration with a prior note "x" on step 1 and current_step 2. -/
def mDemoNote : Migration :=
  { version := 1, startedAt := 0, projectPath := "/x", currentStep := "2",
    steps := [("1", { id := "1", status := StepInProgress, startedAt := some 1,
                      completedAt := none, notes := "x" }),
              ("2", { id := "2", status := StepPending, startedAt := none,
                      completedAt := none, notes := "" })],
    stepOrder := ["1", "2"] }

/-- Claim C6 witness: completing step 1 with an empty note while
current_step is 2 succeeds, keeps the note "x", and leaves step 2 and
current_step untouched. -/
theorem c6_complete_step_witness :
    mDemoNote.CompleteStep "1" "" 6 = .ok
      { mDemoNote with
        steps := mapInsert "1"
          (completedRec { id := "1", status := StepInProgress, startedAt := some 1,
                          completedAt := none, notes := "x" } "" 6) mDemoNote.steps } ∧
    (completedRec { id := "1", status := StepInProgress, startedAt := some 1,
                    completedAt := none, notes := "x" } "" 6).notes = "x" ∧
    mapLookup "2" (mapInsert "1"
      (completedRec { id := "1", status := StepInProgress, startedAt := some 1,
                      completedAt := none, notes := "x" } "" 6) mDemoNote.steps) =
      mapLookup "2" mDemoNote.steps ∧
    (Migration.currentStep
      { mDemoNote with
        steps := mapInsert "1"
          (completedRec { id := "1", status := StepInProgress, startedAt := some 1,
                          completedAt := none, notes := "x" } "" 6) mDemoNote.steps } =
      mDemoNote.currentStep) :=
  ⟨(c6_complete_step mDemoNote "1" "" 6 _ rfl).1,
   (c6_complete_step mDemoNote "1" "" 6 _ rfl).2.2.1,
   (c6_complete_step mDemoNote "1" "" 6 _ rfl).2.2.2.2.1 "2" (by decide),
   (c6_complete_step mDemoNote "1" "" 6 _ rfl).2.2.2.2.2⟩

/-! ## Claim C8 -/

/-- Claim C8: with k completed records and s skipped records among n
total, Progress returns (k+s, n) — skipped counts as done — and
IsComplete holds exactly when the completed-or-skipped count is the
total. -/
theorem c8_progress (m : Migration) (k s : Nat)
    (hk : m.steps.countP (fun kv => kv.2.status == StepCompleted) = k)
    (hs : m.steps.countP (fun kv => kv.2.status == StepSkipped) = s) :
    m.Progress = (k + s, m.steps.length) ∧
    (m.IsComplete = true ↔ k + s = m.steps.length) := by
  have hd : ∀ kv : String × StepRecord,
      ¬((kv.2.status == StepCompleted) = true ∧ (kv.2.status == StepSkipped) = true) := by
    rintro kv ⟨h1, h2⟩
    rw [beq_iff_eq] at h1 h2
    rw [h1] at h2
    exact absurd h2 (by decide)
  have hcount : m.steps.countP
      (fun kv => kv.2.status == StepCompleted || kv.2.status == StepSkipped) = k + s := by
    rw [countP_or_disjoint _ _ _ (fun a _ => hd a), hk, hs]
  constructor
  · simp [Migration.Progress, hcount]
  · simp [Migration.IsComplete, Migration.Progress, hcount]

/-- Four steps: one completed, one skipped, one pending, one in progress. -/
def mProgDemo : Migration :=
  { version := 1, startedAt := 0, projectPath := "/x", currentStep := "4",
    steps := [("1", { id := "1", status := StepCompleted, startedAt := some 1,
                      completedAt := some 2, notes := "" }),
              ("2", { id := "2", status := StepSkipped, startedAt := none,
                      completedAt := none, notes := "" }),
              ("3", { id := "3", status := StepPending, startedAt := none,
                      completedAt := none, notes := "" }),
              ("4", { id := "4", status := StepInProgress, startedAt := some 3,
                      completedAt := none, notes := "" })],
    stepOrder := ["1", "2", "3", "4"] }

/-- Claim C8 witness: one completed plus one skipped of four gives (2, 4)
and the run is not complete. -/
theorem c8_progress_witness :
    mProgDemo.Progress = (1 + 1, mProgDemo.steps.length) ∧
    (mProgDemo.IsComplete = true ↔ 1 + 1 = mProgDemo.steps.length) :=
  c8_progress mProgDemo 1 1 rfl rfl

/-! ## Claim C7 -/

theorem unmarshal_marshal_step (r : StepRecord) :
    unmarshalStepRecord (marshalStepRecord r) = some r := by
  obtain ⟨id, status, sa, ca, notes⟩ := r
  rcases sa with _ | t1 <;> rcases ca with _ | t2 <;> by_cases hn : notes = "" <;>
    simp [marshalStepRecord, unmarshalStepRecord, fieldStr, fieldOptNat, jLookup, hn]

theorem decodeSteps_encode (l : List (String × StepRecord)) :
    decodeSteps (l.map (fun kv => (kv.1, marshalStepRecord kv.2))) = some l := by
  induction l with
  | nil => rfl
  | cons kv t ih => simp [decodeSteps, unmarshal_marshal_step, ih]

theorem decodeStrList_encode (l : List String) :
    decodeStrList (l.map Json.str) = some l := by
  induction l with
  | nil => rfl
  | cons s t ih => simp [decodeStrList, ih]

theorem unmarshal_marshal_migration (m : Migration) :
    unmarshalMigration (marshalMigration m) = some m := by
  obtain ⟨v, sa, pp, cs, steps, so⟩ := m
  simp [marshalMigration, unmarshalMigration, fieldNat, fieldStr, fieldSteps, fieldStrList,
    jLookup, decodeSteps_encode, decodeStrList_encode]

/-- Claim C7: saving a freshly initialized progress state and loading it
back reproduces the state itself — in particular the same current_step,
the same record under every id and the same step_order — and loading
when no progress file exists returns no-state (.ok none), an outcome
distinct from every error. -/
theorem c7_roundtrip (fs : FS) (projectDir : String) (ids : List String) (now : Nat) :
    progLoad ((Migration.New now projectDir ids).Save fs projectDir) projectDir =
      .ok (some (Migration.New now projectDir ids)) ∧
    (mapLookup (ProgressPath projectDir) fs.progFiles = none →
      progLoad fs projectDir = .ok none) := by
  constructor
  · simp [Migration.Save, progLoad, mapLookup_mapInsert_self, unmarshal_marshal_migration]
  · intro h
    simp [progLoad, h]

/-- Claim C7 witness: a two-step run round-trips through the persisted
document, and an empty filesystem loads as no-state. -/
theorem c7_roundtrip_witness :
    progLoad ((Migration.New 5 "/p" ["1", "2"]).Save emptyFS "/p") "/p" =
      .ok (some (Migration.New 5 "/p" ["1", "2"])) ∧
    progLoad emptyFS "/p" = .ok none :=
  ⟨(c7_roundtrip emptyFS "/p" ["1", "2"] 5).1,
   (c7_roundtrip emptyFS "/p" ["1", "2"] 5).2 rfl⟩

/-! ## Claims C9 and C10 -/

/-- Set over an existing document: the stored result carries the new
content, the current step at call time, the inherited created_at and the
fresh updated_at, with done and done_at reset to their zero values. -/
theorem reqSet_update {fs fs' : FS} {projectDir p c : String} {t : Nat} {d : Requirement}
    (hget : reqGet fs projectDir p = .ok (some d))
    (hset : reqSet fs t projectDir p c = .ok fs') :
    reqGet fs' projectDir p =
      .ok (some { path := p, content := c, step := getCurrentStep fs projectDir,
                  createdAt := d.createdAt, updatedAt := t, done := false, doneAt := none }) := by
  cases hsp : newSafeReqPath projectDir p with
  | error e => simp [reqGet, hsp] at hget
  | ok sp =>
    have hdoc := reqSetDoc_of_some hget t c
    have hpath : newSafeReqPath projectDir (reqSetDoc fs t projectDir p c).path = .ok sp := by
      rw [reqSetDoc_path]
      exact hsp
    rw [reqSet, reqSave_ok hpath fs] at hset
    have hfs := Except.ok.inj hset
    rw [← hfs, reqGet_ok hsp, mapLookup_mapInsert_self, hdoc]

/-- Set on a fresh path: the stored result is the new document with both
timestamps at the call time. -/
theorem reqSet_fresh {fs fs' : FS} {projectDir p c : String} {t : Nat}
    (hget : reqGet fs projectDir p = .ok none)
    (hset : reqSet fs t projectDir p c = .ok fs') :
    reqGet fs' projectDir p =
      .ok (some { path := p, content := c, step := getCurrentStep fs projectDir,
                  createdAt := t, updatedAt := t, done := false, doneAt := none }) := by
  cases hsp : newSafeReqPath projectDir p with
  | error e => simp [reqGet, hsp] at hget
  | ok sp =>
    have hdoc := reqSetDoc_of_none hget t c
    have hpath : newSafeReqPath projectDir (reqSetDoc fs t projectDir p c).path = .ok sp := by
      rw [reqSetDoc_path]
      exact hsp
    rw [reqSet, reqSave_ok hpath fs] at hset
    have hfs := Except.ok.inj hset
    rw [← hfs, reqGet_ok hsp, mapLookup_mapInsert_self, hdoc]

/-- Claim C9: a second Set on the same path preserves the created_at
stamped by the first and sets updated_at to the strictly later second
call time; more generally created_at is inherited unchanged by every
update to an existing document while updated_at takes the update time. -/
theorem c9_created_at :
    (∀ (fs fs1 fs2 : FS) (projectDir p c1 c2 : String) (t1 t2 : Nat),
      t1 < t2 →
      reqGet fs projectDir p = .ok none →
      reqSet fs t1 projectDir p c1 = .ok fs1 →
      reqSet fs1 t2 projectDir p c2 = .ok fs2 →
      reqGet fs2 projectDir p =
        .ok (some { path := p, content := c2, step := getCurrentStep fs1 projectDir,
                    createdAt := t1, updatedAt := t2, done := false, doneAt := none }) ∧
      t1 < t2) ∧
    (∀ (fs fs' : FS) (projectDir p c : String) (t : Nat) (d : Requirement),
      reqGet fs projectDir p = .ok (some d) →
      reqSet fs t projectDir p c = .ok fs' →
      reqGet fs' projectDir p =
        .ok (some { path := p, content := c, step := getCurrentStep fs projectDir,
                    createdAt := d.createdAt, updatedAt := t, done := false, doneAt := none })) := by
  constructor
  · intro fs fs1 fs2 projectDir p c1 c2 t1 t2 hlt h0 h1 h2
    have hget1 := reqSet_fresh h0 h1
    exact ⟨reqSet_update hget1 h2, hlt⟩
  · intro fs fs' projectDir p c t d hget hset
    exact reqSet_update hget hset

def c9FS1 : FS := exceptDFS (reqSet emptyFS 1 "/p" "api/cli" "v1")
def c9FS2 : FS := exceptDFS (reqSet c9FS1 2 "/p" "api/cli" "v2")

/-- Claim C9 witness: two Sets at times 1 then 2 on a fresh path leave
created_at = 1 and updated_at = 2. -/
theorem c9_created_at_witness :
    reqGet c9FS2 "/p" "api/cli" =
      .ok (some { path := "api/cli", content := "v2", step := getCurrentStep c9FS1 "/p",
                  createdAt := 1, updatedAt := 2, done := false, doneAt := none }) ∧
    (1 : Nat) < 2 :=
  c9_created_at.1 emptyFS c9FS1 c9FS2 "/p" "api/cli" "v1" "v2" 1 2 (by decide) rfl rfl rfl

/-- Claim C10: a Set over a document marked done resets done to false,
removes done_at, re-stamps step with the progress store's current step at
update time, takes the new content and update time, and carries over only
created_at from the prior document. -/
theorem c10_set_resets_done (fs fs' : FS) (t : Nat) (projectDir p c : String) (d : Requirement)
    (hget : reqGet fs projectDir p = .ok (some d)) (_hdone : d.done = true)
    (hset : reqSet fs t projectDir p c = .ok fs') :
    reqGet fs' projectDir p =
      .ok (some { path := p, content := c, step := getCurrentStep fs projectDir,
                  createdAt := d.createdAt, updatedAt := t, done := false, doneAt := none }) :=
  reqSet_update hget hset

/-- A store whose document a/b was Set at time 1 and marked Done at time 2. -/
def doneDemoFS : FS :=
  exceptDFS (do
    let f1 ← reqSet emptyFS 1 "/p" "a/b" "v1"
    reqDone f1 2 "/p" "a/b")

def doneSetFS : FS := exceptDFS (reqSet doneDemoFS 5 "/p" "a/b" "v2")

/-- Claim C10 witness: the done mark and done_at set at time 2 do not
survive the Set at time 5; only created_at = 1 is carried over. -/
theorem c10_set_resets_done_witness :
    reqGet doneDemoFS "/p" "a/b" =
      .ok (some { path := "a/b", content := "v1", step := "",
                  createdAt := 1, updatedAt := 2, done := true, doneAt := some 2 }) ∧
    reqGet doneSetFS "/p" "a/b" =
      .ok (some { path := "a/b", content := "v2", step := getCurrentStep doneDemoFS "/p",
                  createdAt := 1, updatedAt := 5, done := false, doneAt := none }) :=
  ⟨rfl,
   c10_set_resets_done doneDemoFS doneSetFS 5 "/p" "a/b" "v2"
     { path := "a/b", content := "v1", step := "",
       createdAt := 1, updatedAt := 2, done := true, doneAt := some 2 } rfl rfl rfl⟩

end Rinku
